import Mathlib

set_option linter.unnecessarySeqFocus false

/-! Sanitizing an int64 struct field.

A shallow embedding of `sanitizeInt64Field` (int64.go).  The Go function reads the
`min`, `max` and `def` components of a struct tag, checks them against each other and
then either fills a nil `*int64` field with the default or clamps the present value.

The embedding threads the content of the struct field through the function explicitly:
every way of leaving the function carries the content the field has at that moment.
Integers are mathematical integers; the function performs no arithmetic on them, only
comparisons and copies, so no wrap-around can occur.
-/

namespace Sanitize

/-! ## Tag components and their parsing -/

/-- Result of `s.fieldTags(...)`: the Go `map[string]string` of tag components,
as a lookup that answers `none` for a key that is not in the map. -/
abbrev Tags := String → Option String

/-- Error value of `parseInt64`, carrying the text that could not be read. -/
structure ParseError where
  text : String
  deriving DecidableEq, Repr

deriving instance DecidableEq for Except

/-- Reads a run of decimal digits, most significant first, into `acc`. -/
def parseDigits (acc : Nat) : List Char → Option Nat
  | [] => some acc
  | c :: cs =>
    if c.isDigit then parseDigits (acc * 10 + (c.toNat - 48)) cs else none

/-- Modelled from the spec: `parseInt64` is called by int64.go but defined in another
file of the package.  The spec (4.1) says the text is parsed "as a base-10 signed integer
of the field's bit-width" and that parsing fails "if the text is not a valid integer
literal for that width".  Here: an optional sign, then at least one decimal digit, and a
value between `-2^63` and `2^63 - 1`. -/
def parseInt64 (s : String) : Except ParseError Int :=
  match s.toList with
  | [] => .error ⟨s⟩
  | c :: cs =>
    let neg : Bool := c = '-'
    let digits : List Char := if c = '-' ∨ c = '+' then cs else c :: cs
    match digits with
    | [] => .error ⟨s⟩
    | d :: ds =>
      match parseDigits 0 (d :: ds) with
      | none => .error ⟨s⟩
      | some n =>
        if neg then
          if n ≤ 2 ^ 63 then .ok (-(n : Int)) else .error ⟨s⟩
        else
          if n < 2 ^ 63 then .ok (n : Int) else .error ⟨s⟩

/-! ## Errors -/

/-- The errors `sanitizeInt64Field` returns.  The last four are built with `fmt.Errorf`
and carry the arguments of the format string. -/
inductive SanitizeError
  | parse (err : ParseError)
  | maxLessThanMin (typeName : String)
  | belowZero (typeName : String)
  | defHigherThanMax (d mx : Int)
  | defLowerThanMin (d mn : Int)
  deriving DecidableEq, Repr

/-- Text of an error, following the format strings of int64.go. -/
def SanitizeError.message : SanitizeError → String
  | .parse err => "invalid int64 literal: " ++ err.text
  | .maxLessThanMin typeName =>
    "max less than min on int64 field \x27" ++ typeName ++ "\x27 during struct sanitization"
  | .belowZero typeName =>
    "min and max on int64 field \x27" ++ typeName ++ "\x27 can not be below 0"
  | .defHigherThanMax d mx =>
    "incompatible def and max tag components, def (" ++ toString d ++
      ") is higher than max (" ++ toString mx ++ ")"
  | .defLowerThanMin d mn =>
    "incompatible def and min tag components, def (" ++ toString d ++
      ") is lower than min (" ++ toString mn ++ ")"

/-! ## The struct field as seen through reflect -/

/-- Content of the struct field: an `int64`, or an `*int64` that is nil (`none`) or
points to an `int64`. -/
inductive FieldValue
  | plain (v : Int)
  | ptr (p : Option Int)
  deriving DecidableEq, Repr

/-- `fieldValue.Kind() == reflect.Ptr`. -/
def FieldValue.isPtr : FieldValue → Bool
  | .plain _ => false
  | .ptr _ => true

/-- `fieldValue.IsNil()`; the source only calls it behind `isPtr &&`. -/
def FieldValue.IsNil : FieldValue → Bool
  | .plain _ => false
  | .ptr p => p.isNone

/-- The value a present field holds, `none` for a nil pointer. -/
def FieldValue.value? : FieldValue → Option Int
  | .plain v => some v
  | .ptr p => p

/-- One field of the struct: `structValue.Type().Field(idx).Name`, the answer of
`fieldValue.Type().Name()`, and the content. -/
structure Field where
  name : String
  typeName : String
  value : FieldValue
  deriving DecidableEq, Repr

/-- What the local variable `fieldValue` denotes: the struct field itself, or, after
`fieldValue = fieldValue.Elem()`, the `int64` a non-nil pointer field points to. -/
inductive Handle
  | field
  | elem
  deriving DecidableEq, Repr

/-- `fieldValue.Int()`: `none` stands for the panic of reflect when the value is not of
an integer kind. -/
def reflectInt : Handle → FieldValue → Option Int
  | .field, .plain v => some v
  | .field, .ptr _ => none
  | .elem, .ptr (some v) => some v
  | .elem, _ => none

/-- `fieldValue.SetInt(n)`: the content of the struct field afterwards, `none` for the
panic of reflect when the value is not of an integer kind. -/
def reflectSetInt : Handle → FieldValue → Int → Option FieldValue
  | .field, .plain _, n => some (.plain n)
  | .field, .ptr _, _ => none
  | .elem, .ptr (some _), n => some (.ptr (some n))
  | .elem, _, _ => none

/-- How a call ends: it returns (`err = none` is Go's `nil`) leaving the field with the
given content, or it panics. -/
inductive Outcome
  | returned (err : Option SanitizeError) (fieldValue : FieldValue)
  | panicked
  deriving DecidableEq, Repr

/-! ## The function -/

/-- The function `sanitizeInt64Field` of int64.go, for the field `fld` whose tag
components are `tags`. -/
def sanitizeInt64Field (tags : Tags) (fld : Field) : Outcome :=
  let fieldValue := fld.value
  let isPtr := fieldValue.isPtr
  -- Minimum value
  let hasMin := (tags "min").isSome
  match (if hasMin then parseInt64 ((tags "min").getD "") else .ok 0) with
  | .error err => .returned (some (.parse err)) fieldValue
  | .ok min =>
  -- Maximum value
  let hasMax := (tags "max").isSome
  match (if hasMax then parseInt64 ((tags "max").getD "") else .ok 0) with
  | .error err => .returned (some (.parse err)) fieldValue
  | .ok max =>
  -- Checking if minimum is not higher than maximum
  if hasMax && hasMin && decide (max < min) then
    .returned (some (.maxLessThanMin fld.typeName)) fieldValue
  -- Checking if minimum and maximum are above 0
  else if (hasMin && decide (min < 0)) || (hasMax && decide (max < 0)) then
    .returned (some (.belowZero fld.typeName)) fieldValue
  else
  -- Default value
  let hasDef := (tags "def").isSome
  match (if hasDef then
      match parseInt64 ((tags "def").getD "") with
      | .error err => Except.error (SanitizeError.parse err)
      | .ok d =>
        -- Making sure default is not smaller than min or higher than max
        if hasMax && decide (d > max) then .error (.defHigherThanMax d max)
        else if hasMin && decide (d < min) then .error (.defLowerThanMin d min)
        else .ok d
    else .ok 0) with
  | .error e => .returned (some e) fieldValue
  | .ok defVal =>
  -- Pointer, nil, and we have a default: set it
  if isPtr && fieldValue.IsNil && hasDef then
    .returned none (.ptr (some defVal))
  else
  -- Not nil pointer. Dereference then continue as normal
  let h : Handle := if isPtr && !fieldValue.IsNil then .elem else .field
  -- Apply min and max transforms
  match (if hasMin then
      match reflectInt h fieldValue with
      | none => none
      | some oldNum => if min > oldNum then reflectSetInt h fieldValue min else some fieldValue
    else some fieldValue) with
  | none => .panicked
  | some afterMin =>
  match (if hasMax then
      match reflectInt h afterMin with
      | none => none
      | some oldNum => if max < oldNum then reflectSetInt h afterMin max else some afterMin
    else some afterMin) with
  | none => .panicked
  | some afterMax => .returned none afterMax

/-! ## Vocabulary of the statements -/

/-- The constraint component under `key`: absent, or the outcome of parsing its text. -/
def component (tags : Tags) (key : String) : Option (Except ParseError Int) :=
  (tags key).map parseInt64

/-- Tag map built from optional texts for `min`, `max` and `def`. -/
def mkTags (smin smax sdef : Option String) : Tags := fun key =>
  if key = "min" then smin else if key = "max" then smax else if key = "def" then sdef else none

/-- Forcing `v` into the bounds that are present, lower bound first. -/
def clamp (omin omax : Option Int) (v : Int) : Int :=
  let w := match omin with
    | some mn => if v < mn then mn else v
    | none => v
  match omax with
  | some mx => if mx < w then mx else w
  | none => w

/-- The field content with the pointee or plain value replaced by `n`; a nil pointer
stays nil. -/
def FieldValue.withValue : FieldValue → Int → FieldValue
  | .plain _, n => .plain n
  | .ptr (some _), n => .ptr (some n)
  | .ptr none, _ => .ptr none

/-- Checks 1 and 2 of the source hold on the parsed bounds. -/
structure ValidBounds (omin omax : Option Int) : Prop where
  min_le_max : ∀ mn mx, omin = some mn → omax = some mx → mn ≤ mx
  min_nonneg : ∀ mn, omin = some mn → 0 ≤ mn
  max_nonneg : ∀ mx, omax = some mx → 0 ≤ mx

/-- What the call does once all three components have parsed and passed the four checks:
a nil pointer takes the default when there is one, a present value is clamped, and a
nil pointer without default is read through reflect as soon as a bound is present. -/
def resolved (omin omax odef : Option Int) : FieldValue → Outcome
  | .plain v => .returned none (.plain (clamp omin omax v))
  | .ptr (some v) => .returned none (.ptr (some (clamp omin omax v)))
  | .ptr none =>
    match odef with
    | some d => .returned none (.ptr (some d))
    | none => if omin.isSome || omax.isSome then .panicked else .returned none (.ptr none)

/-- All four checks of the source hold on the parsed components. -/
structure Valid (omin omax odef : Option Int) extends ValidBounds omin omax : Prop where
  def_le_max : ∀ d mx, odef = some d → omax = some mx → d ≤ mx
  min_le_def : ∀ d mn, odef = some d → omin = some mn → mn ≤ d

/-- The checks of spec 4.2 on parsed components, in the order the spec lists them:
(1) `max < min`, (2) a negative `min` or `max`, (3) `def > max`, (4) `def < min`.  The
error of the first check that is violated, `none` when all four pass. -/
def firstViolation (typeName : String) (omin omax odef : Option Int) :
    Option SanitizeError :=
  if (match omin, omax with
      | some mn, some mx => decide (mx < mn)
      | _, _ => false) then
    some (.maxLessThanMin typeName)
  else if (match omin with
      | some mn => decide (mn < 0)
      | none => false) ||
      (match omax with
      | some mx => decide (mx < 0)
      | none => false) then
    some (.belowZero typeName)
  else
    match (match odef, omax with
        | some d, some mx =>
          if mx < d then some (SanitizeError.defHigherThanMax d mx) else none
        | _, _ => none) with
    | some e => some e
    | none =>
      match odef, omin with
      | some d, some mn => if d < mn then some (.defLowerThanMin d mn) else none
      | _, _ => none

/-- Lines 94-99 on the working value `v` of a present field: the value after the
minimum transform. -/
def minClamp (omin : Option Int) (v : Int) : Int :=
  match omin with
  | some mn => if v < mn then mn else v
  | none => v

/-- Lines 100-105 on the working value `v` of a present field: the value after the
maximum transform. -/
def maxClamp (omax : Option Int) (v : Int) : Int :=
  match omax with
  | some mx => if mx < v then mx else v
  | none => v

/-- The two default checks of lines 64-79 taken in the other order, `def < min` first and
`def > max` second: the error returned, `none` when both pass. -/
def defErrorMinFirst (omin omax : Option Int) (d : Int) : Option SanitizeError :=
  match (match omin with
      | some mn => if d < mn then some (SanitizeError.defLowerThanMin d mn) else none
      | none => none) with
  | some e => some e
  | none =>
    match omax with
    | some mx => if mx < d then some (.defHigherThanMax d mx) else none
    | none => none

/-- Whether the text `msg` contains the text `name`. -/
def mentions (msg name : String) : Bool :=
  decide (name.toList <:+: msg.toList)

/-! ## Reading the hypotheses on tag components -/

theorem component_ok {tags : Tags} {key : String} {n : Int}
    (h : component tags key = some (.ok n)) :
    ∃ s, tags key = some s ∧ parseInt64 s = .ok n := by
  unfold component at h
  cases hk : tags key with
  | none => simp [hk] at h
  | some s => exact ⟨s, rfl, by simpa [hk] using h⟩

theorem component_error {tags : Tags} {key : String} {e : ParseError}
    (h : component tags key = some (.error e)) :
    ∃ s, tags key = some s ∧ parseInt64 s = .error e := by
  unfold component at h
  cases hk : tags key with
  | none => simp [hk] at h
  | some s => exact ⟨s, rfl, by simpa [hk] using h⟩

theorem component_none {tags : Tags} {key : String}
    (h : component tags key = none) : tags key = none := by
  unfold component at h
  simpa using h

theorem component_opt {tags : Tags} {key : String} {o : Option Int}
    (h : component tags key = o.map .ok) :
    (o = none ∧ tags key = none) ∨
      ∃ n s, o = some n ∧ tags key = some s ∧ parseInt64 s = .ok n := by
  cases o with
  | none => exact Or.inl ⟨rfl, component_none h⟩
  | some n =>
    obtain ⟨s, hs, hp⟩ := component_ok h
    exact Or.inr ⟨n, s, rfl, hs, hp⟩

theorem component_isSome {tags : Tags} {key : String} {o : Option Int}
    (h : component tags key = o.map .ok) : (tags key).isSome = o.isSome := by
  rcases component_opt h with ⟨rfl, hk⟩ | ⟨n, s, rfl, hk, -⟩ <;> simp [hk]

theorem component_parse {tags : Tags} {key : String} {n : Int}
    (h : component tags key = some (.ok n)) :
    parseInt64 ((tags key).getD "") = .ok n := by
  obtain ⟨s, hk, hp⟩ := component_ok h
  simp [hk, hp]

theorem component_guarded {tags : Tags} {key : String} {o : Option Int}
    (h : component tags key = o.map .ok) :
    (if (tags key).isSome = true then parseInt64 ((tags key).getD "") else Except.ok 0)
      = .ok (o.getD 0) := by
  rcases component_opt h with ⟨rfl, hk⟩ | ⟨n, s, rfl, hk, hp⟩
  · simp [hk]
  · simp [hk, hp]

theorem component_unparsed {tags : Tags} {key : String} {e : ParseError}
    (h : component tags key = some (.error e)) :
    (tags key).isSome = true ∧ parseInt64 ((tags key).getD "") = .error e := by
  obtain ⟨s, hk, hp⟩ := component_error h
  simp [hk, hp]

/-! ## The ways the call returns an error -/

theorem sanitize_min_unparsed {tags : Tags} {fld : Field} {e : ParseError}
    (hmin : component tags "min" = some (.error e)) :
    sanitizeInt64Field tags fld = .returned (some (.parse e)) fld.value := by
  obtain ⟨h1, h2⟩ := component_unparsed hmin
  simp [sanitizeInt64Field, h1, h2]

theorem sanitize_max_unparsed {tags : Tags} {fld : Field} {omin : Option Int}
    {e : ParseError}
    (hmin : component tags "min" = omin.map .ok)
    (hmax : component tags "max" = some (.error e)) :
    sanitizeInt64Field tags fld = .returned (some (.parse e)) fld.value := by
  obtain ⟨h1, h2⟩ := component_unparsed hmax
  unfold sanitizeInt64Field
  simp only [component_guarded hmin]
  simp [h1, h2]

theorem sanitize_inconsistent {tags : Tags} {fld : Field} {mn mx : Int}
    (hmin : component tags "min" = some (.ok mn))
    (hmax : component tags "max" = some (.ok mx))
    (hlt : mx < mn) :
    sanitizeInt64Field tags fld = .returned (some (.maxLessThanMin fld.typeName)) fld.value := by
  have hmin1 : component tags "min" = (some mn).map .ok := hmin
  have hmax1 : component tags "max" = (some mx).map .ok := hmax
  unfold sanitizeInt64Field
  simp only [component_guarded hmin1, component_guarded hmax1]
  simp [component_isSome hmin1, component_isSome hmax1, hlt]

theorem sanitize_negative {tags : Tags} {fld : Field} {omin omax : Option Int}
    (hmin : component tags "min" = omin.map .ok)
    (hmax : component tags "max" = omax.map .ok)
    (hcons : ∀ mn mx, omin = some mn → omax = some mx → mn ≤ mx)
    (hneg : (∃ mn, omin = some mn ∧ mn < 0) ∨ (∃ mx, omax = some mx ∧ mx < 0)) :
    sanitizeInt64Field tags fld = .returned (some (.belowZero fld.typeName)) fld.value := by
  unfold sanitizeInt64Field
  simp only [component_guarded hmin, component_guarded hmax]
  simp only [component_isSome hmin, component_isSome hmax]
  cases omin <;> cases omax <;> simp at hcons hneg <;> simp [hneg] <;> omega

theorem sanitize_def_unparsed {tags : Tags} {fld : Field} {omin omax : Option Int}
    {e : ParseError}
    (hmin : component tags "min" = omin.map .ok)
    (hmax : component tags "max" = omax.map .ok)
    (hb : ValidBounds omin omax)
    (hdef : component tags "def" = some (.error e)) :
    sanitizeInt64Field tags fld = .returned (some (.parse e)) fld.value := by
  obtain ⟨h1, h2, h3⟩ := hb
  obtain ⟨hd1, hd2⟩ := component_unparsed hdef
  unfold sanitizeInt64Field
  simp only [component_guarded hmin, component_guarded hmax]
  simp only [component_isSome hmin, component_isSome hmax]
  cases omin <;> cases omax <;> simp at h1 h2 h3 <;> simp [hd1, hd2, *] <;>
    (try split_ifs) <;> (try simp_all) <;> (try omega)

theorem sanitize_def_above {tags : Tags} {fld : Field} {omin : Option Int} {mx d : Int}
    (hmin : component tags "min" = omin.map .ok)
    (hmax : component tags "max" = some (.ok mx))
    (hb : ValidBounds omin (some mx))
    (hdef : component tags "def" = some (.ok d))
    (hgt : mx < d) :
    sanitizeInt64Field tags fld = .returned (some (.defHigherThanMax d mx)) fld.value := by
  obtain ⟨h1, h2, h3⟩ := hb
  have hmax1 : component tags "max" = (some mx).map .ok := hmax
  have hdef1 : component tags "def" = (some d).map .ok := hdef
  unfold sanitizeInt64Field
  simp only [component_guarded hmin, component_guarded hmax1]
  simp only [component_isSome hmin, component_isSome hmax1, component_isSome hdef1]
  cases omin <;> simp at h1 h2 h3 <;> simp [component_parse hdef, hgt, *] <;>
    (try split_ifs) <;> (try simp_all) <;> (try omega)

theorem sanitize_def_below {tags : Tags} {fld : Field} {omax : Option Int} {mn d : Int}
    (hmin : component tags "min" = some (.ok mn))
    (hmax : component tags "max" = omax.map .ok)
    (hb : ValidBounds (some mn) omax)
    (hdef : component tags "def" = some (.ok d))
    (hle : ∀ mx, omax = some mx → d ≤ mx)
    (hlt : d < mn) :
    sanitizeInt64Field tags fld = .returned (some (.defLowerThanMin d mn)) fld.value := by
  obtain ⟨h1, h2, h3⟩ := hb
  have hmin1 : component tags "min" = (some mn).map .ok := hmin
  have hdef1 : component tags "def" = (some d).map .ok := hdef
  unfold sanitizeInt64Field
  simp only [component_guarded hmin1, component_guarded hmax]
  simp only [component_isSome hmin1, component_isSome hmax, component_isSome hdef1]
  cases omax <;> simp at h1 h2 h3 hle <;> simp [component_parse hdef, hlt, *] <;>
    (try split_ifs) <;> (try simp_all) <;> (try omega)

/-! ## The call on a validated constraint set -/

theorem sanitize_of_valid {tags : Tags} {fld : Field} {omin omax odef : Option Int}
    (hmin : component tags "min" = omin.map .ok)
    (hmax : component tags "max" = omax.map .ok)
    (hdef : component tags "def" = odef.map .ok)
    (hvalid : Valid omin omax odef) :
    sanitizeInt64Field tags fld = resolved omin omax odef fld.value := by
  obtain ⟨⟨h1, h2, h3⟩, h4, h5⟩ := hvalid
  obtain ⟨name, typeName, fv⟩ := fld
  unfold sanitizeInt64Field
  simp only [component_guarded hmin, component_guarded hmax]
  simp only [component_isSome hmin, component_isSome hmax, component_isSome hdef]
  cases odef with
  | none =>
    cases omin <;> cases omax <;> rcases fv with v | _ | v <;>
    simp at h1 h2 h3 h4 h5 <;>
    simp [resolved, clamp, FieldValue.isPtr, FieldValue.IsNil] <;>
    (try split_ifs) <;>
    (try simp [reflectInt, reflectSetInt, *]) <;>
    (try omega)
  | some d =>
    cases omin <;> cases omax <;> rcases fv with v | _ | v <;>
    simp at h1 h2 h3 h4 h5 <;>
    simp [resolved, clamp, FieldValue.isPtr, FieldValue.IsNil, component_parse hdef] <;>
    (try split_ifs) <;>
    (try simp [reflectInt, reflectSetInt, *]) <;>
    (try omega)

theorem resolved_ne_error (omin omax odef : Option Int) (fv : FieldValue)
    (e : SanitizeError) (st : FieldValue) :
    resolved omin omax odef fv ≠ .returned (some e) st := by
  rcases fv with v | _ | v <;> cases odef <;> simp [resolved] <;> split_ifs <;> simp

theorem component_cases (tags : Tags) (key : String) :
    (∃ o : Option Int, component tags key = o.map .ok) ∨
      ∃ e, component tags key = some (.error e) := by
  rcases hc : component tags key with _ | e | n
  · exact Or.inl ⟨none, rfl⟩
  · exact Or.inr ⟨e, rfl⟩
  · exact Or.inl ⟨some n, rfl⟩

/-- Every call either returns an error with the field as it was, or runs on a validated
constraint set. -/
theorem error_or_valid (tags : Tags) (fld : Field) :
    (∃ e, sanitizeInt64Field tags fld = .returned (some e) fld.value) ∨
      ∃ omin omax odef, component tags "min" = omin.map .ok ∧
        component tags "max" = omax.map .ok ∧ component tags "def" = odef.map .ok ∧
        Valid omin omax odef := by
  rcases component_cases tags "min" with ⟨omin, hmin⟩ | ⟨e, hmin⟩
  swap
  · exact Or.inl ⟨_, sanitize_min_unparsed hmin⟩
  rcases component_cases tags "max" with ⟨omax, hmax⟩ | ⟨e, hmax⟩
  swap
  · exact Or.inl ⟨_, sanitize_max_unparsed hmin hmax⟩
  by_cases hc : ∀ mn mx, omin = some mn → omax = some mx → mn ≤ mx
  swap
  · push_neg at hc
    obtain ⟨mn, mx, rfl, rfl, hlt⟩ := hc
    exact Or.inl ⟨_, sanitize_inconsistent hmin hmax hlt⟩
  by_cases hn : (∃ mn, omin = some mn ∧ mn < 0) ∨ (∃ mx, omax = some mx ∧ mx < 0)
  · exact Or.inl ⟨_, sanitize_negative hmin hmax hc hn⟩
  have hb : ValidBounds omin omax := by
    refine ⟨hc, fun mn h => ?_, fun mx h => ?_⟩
    · by_contra hlt
      exact hn (Or.inl ⟨mn, h, not_le.mp hlt⟩)
    · by_contra hlt
      exact hn (Or.inr ⟨mx, h, not_le.mp hlt⟩)
  rcases component_cases tags "def" with ⟨odef, hdef⟩ | ⟨e, hdef⟩
  swap
  · exact Or.inl ⟨_, sanitize_def_unparsed hmin hmax hb hdef⟩
  by_cases h4 : ∀ d mx, odef = some d → omax = some mx → d ≤ mx
  swap
  · push_neg at h4
    obtain ⟨d, mx, rfl, rfl, hlt⟩ := h4
    exact Or.inl ⟨_, sanitize_def_above hmin hmax hb hdef hlt⟩
  by_cases h5 : ∀ d mn, odef = some d → omin = some mn → mn ≤ d
  swap
  · push_neg at h5
    obtain ⟨d, mn, rfl, rfl, hlt⟩ := h5
    exact Or.inl ⟨_, sanitize_def_below hmin hmax hb hdef (fun mx h => h4 d mx rfl h) hlt⟩
  exact Or.inr ⟨omin, omax, odef, hmin, hmax, hdef, ⟨hb, h4, h5⟩⟩

/-- The call returns an error exactly when the components do not all parse and pass the
four checks. -/
theorem returns_error_iff (tags : Tags) (fld : Field) :
    (∃ e st, sanitizeInt64Field tags fld = .returned (some e) st) ↔
      ¬ ∃ omin omax odef, component tags "min" = omin.map .ok ∧
        component tags "max" = omax.map .ok ∧ component tags "def" = odef.map .ok ∧
        Valid omin omax odef := by
  constructor
  · rintro ⟨e, st, h⟩ ⟨omin, omax, odef, hmin, hmax, hdef, hvalid⟩
    rw [sanitize_of_valid hmin hmax hdef hvalid] at h
    exact resolved_ne_error _ _ _ _ _ _ h
  · intro hn
    rcases error_or_valid tags fld with ⟨e, he⟩ | hv
    · exact ⟨e, _, he⟩
    · exact absurd hv hn

/-- On a nil pointer and a validated constraint set without default, the call leaves the
field nil when there is no bound and panics when there is one. -/
theorem sanitize_nil_without_default {tags : Tags} {fld : Field} {omin omax : Option Int}
    (hmin : component tags "min" = omin.map .ok)
    (hmax : component tags "max" = omax.map .ok)
    (hdef : component tags "def" = none)
    (hvalid : Valid omin omax none)
    (hnil : fld.value = .ptr none) :
    sanitizeInt64Field tags fld =
      if omin.isSome || omax.isSome then .panicked else .returned none (.ptr none) := by
  have hdef1 : component tags "def" = (none : Option Int).map .ok := hdef
  rw [sanitize_of_valid hmin hmax hdef1 hvalid, hnil]
  rfl

/-! ## Facts about clamping -/

theorem clamp_eq (omin omax : Option Int) (v : Int) :
    clamp omin omax v = maxClamp omax (minClamp omin v) := by
  cases omin <;> cases omax <;> rfl

theorem clamp_bounds {omin omax : Option Int}
    (hc : ∀ mn mx, omin = some mn → omax = some mx → mn ≤ mx) (v : Int) :
    (∀ mn, omin = some mn → mn ≤ clamp omin omax v) ∧
      (∀ mx, omax = some mx → clamp omin omax v ≤ mx) := by
  cases omin <;> cases omax <;> simp at hc <;> simp only [clamp] <;>
    constructor <;> intro b hb <;> cases hb <;> (try split_ifs) <;> omega

theorem resolved_within {omin omax odef : Option Int} (hvalid : Valid omin omax odef)
    {fv st : FieldValue} {err : Option SanitizeError} {v : Int}
    (h : resolved omin omax odef fv = .returned err st) (hv : st.value? = some v) :
    (∀ mn, omin = some mn → mn ≤ v) ∧ (∀ mx, omax = some mx → v ≤ mx) := by
  have hb := @clamp_bounds omin omax hvalid.min_le_max
  rcases fv with v0 | _ | v0
  · simp only [resolved, Outcome.returned.injEq] at h
    obtain ⟨-, rfl⟩ := h
    simp only [FieldValue.value?, Option.some.injEq] at hv
    subst hv
    exact hb v0
  · cases odef with
    | none =>
      simp only [resolved] at h
      split_ifs at h
      simp only [Outcome.returned.injEq] at h
      obtain ⟨-, rfl⟩ := h
      simp [FieldValue.value?] at hv
    | some d =>
      simp only [resolved, Outcome.returned.injEq] at h
      obtain ⟨-, rfl⟩ := h
      simp only [FieldValue.value?, Option.some.injEq] at hv
      subst hv
      exact ⟨fun mn h => hvalid.min_le_def d mn rfl h, fun mx h => hvalid.def_le_max d mx rfl h⟩
  · simp only [resolved, Outcome.returned.injEq] at h
    obtain ⟨-, rfl⟩ := h
    simp only [FieldValue.value?, Option.some.injEq] at hv
    subst hv
    exact hb v0

theorem resolved_presence {omin omax odef : Option Int} {fv st : FieldValue}
    {err : Option SanitizeError} (h : resolved omin omax odef fv = .returned err st) :
    (fv.value?.isSome → st.value?.isSome) ∧
      (fv.value? = none → st.value?.isSome → odef.isSome) := by
  rcases fv with v0 | _ | v0
  · simp only [resolved, Outcome.returned.injEq] at h
    obtain ⟨-, rfl⟩ := h
    simp [FieldValue.value?]
  · cases odef with
    | none =>
      simp only [resolved] at h
      split_ifs at h
      simp only [Outcome.returned.injEq] at h
      obtain ⟨-, rfl⟩ := h
      simp [FieldValue.value?]
    | some d => simp [FieldValue.value?]
  · simp only [resolved, Outcome.returned.injEq] at h
    obtain ⟨-, rfl⟩ := h
    simp [FieldValue.value?]

theorem component_ok_unique {tags : Tags} {key : String} {o : Option Int} {n : Int}
    (h : component tags key = o.map .ok) (hn : component tags key = some (.ok n)) :
    o = some n := by
  rw [h] at hn
  cases o with
  | none => simp at hn
  | some m => simpa using hn

/-- The struct field name plays no part in the call. -/
theorem sanitize_name_irrelevant (tags : Tags) (n1 n2 typeName : String)
    (fv : FieldValue) :
    sanitizeInt64Field tags ⟨n1, typeName, fv⟩ = sanitizeInt64Field tags ⟨n2, typeName, fv⟩ :=
  rfl

theorem clamp_idem (omin omax : Option Int) (v : Int) :
    clamp omin omax (clamp omin omax v) = clamp omin omax v := by
  cases omin <;> cases omax <;> simp only [clamp] <;> (try split_ifs) <;> rfl

theorem clamp_within {omin omax : Option Int} {d : Int}
    (h1 : ∀ mn, omin = some mn → mn ≤ d) (h2 : ∀ mx, omax = some mx → d ≤ mx) :
    clamp omin omax d = d := by
  cases omin <;> cases omax <;> simp at h1 h2 <;> simp only [clamp] <;>
    (try split_ifs) <;> first | rfl | omega

theorem resolved_idem {omin omax odef : Option Int} (hvalid : Valid omin omax odef)
    {fv st : FieldValue} (h : resolved omin omax odef fv = .returned none st) :
    resolved omin omax odef st = .returned none st := by
  rcases fv with v | _ | v
  · simp only [resolved, Outcome.returned.injEq, true_and] at h
    subst h
    simp [resolved, clamp_idem]
  · cases odef with
    | none =>
      simp only [resolved] at h
      split_ifs at h with hb
      simp only [Outcome.returned.injEq, true_and] at h
      subst h
      simp [resolved, hb]
    | some d =>
      simp only [resolved, Outcome.returned.injEq, true_and] at h
      subst h
      have hd : clamp omin omax d = d :=
        clamp_within (fun mn h => hvalid.min_le_def d mn rfl h)
          (fun mx h => hvalid.def_le_max d mx rfl h)
      simp [resolved, hd]
  · simp only [resolved, Outcome.returned.injEq, true_and] at h
    subst h
    simp [resolved, clamp_idem]

/-! ## Clamping a present field -/

/-- C1: with parsed bounds `0 ≤ mn ≤ mx`, a default that is absent or lies within them,
and a present field (plain or non-nil pointer) holding `v`, the call returns nil and the
field then holds `mn` if `v < mn`, `mx` if `v > mx`, and `v` otherwise. -/
theorem sanitize_present_clamps (tags : Tags) (fld : Field) (mn mx v : Int)
    (odef : Option Int)
    (hmin : component tags "min" = some (.ok mn))
    (hmax : component tags "max" = some (.ok mx))
    (hdef : component tags "def" = odef.map .ok)
    (h0 : 0 ≤ mn) (hle : mn ≤ mx)
    (hd : ∀ d, odef = some d → mn ≤ d ∧ d ≤ mx)
    (hv : fld.value = .plain v ∨ fld.value = .ptr (some v)) :
    sanitizeInt64Field tags fld =
      .returned none
        (fld.value.withValue (if v < mn then mn else if mx < v then mx else v)) := by
  have hvalid : Valid (some mn) (some mx) odef := by
    refine ⟨⟨?_, ?_, ?_⟩, ?_, ?_⟩
    · intro a b ha hb
      cases ha; cases hb; exact hle
    · intro a ha
      cases ha; exact h0
    · intro b hb
      cases hb; omega
    · intro d b hd1 hb
      cases hb; exact (hd d hd1).2
    · intro d a hd1 ha
      cases ha; exact (hd d hd1).1
  have hmin1 : component tags "min" = (some mn).map .ok := hmin
  have hmax1 : component tags "max" = (some mx).map .ok := hmax
  rw [sanitize_of_valid hmin1 hmax1 hdef hvalid]
  rcases hv with hv | hv <;> rw [hv] <;> simp only [resolved, clamp, FieldValue.withValue] <;>
    split_ifs <;> first | rfl | omega

/-- Instance of the preceding theorem: value `3` under `min=5`, `max=10` becomes `5`. -/
theorem sanitize_present_clamps_witness :
    sanitizeInt64Field (mkTags (some "5") (some "10") none) ⟨"Age", "int64", .plain 3⟩ =
      .returned none (.plain 5) :=
  sanitize_present_clamps (mkTags (some "5") (some "10") none) ⟨"Age", "int64", .plain 3⟩
    5 10 3 none (by decide) (by decide) (by decide) (by decide) (by decide)
    (by intro d h; cases h) (Or.inl rfl)

/-! ## A nil pointer without default -/

/-- C2: a nil `*int64` field tagged `min=5`, with no `max` and no `def`, is not left
untouched: the bounds parse and pass every check, then the call reads the nil pointer
through `fieldValue.Int()` and panics. -/
theorem sanitize_nil_min_only_panics :
    sanitizeInt64Field (mkTags (some "5") none none) ⟨"Age", "", .ptr none⟩ = .panicked := by
  decide

/-! ## A nil pointer with a default -/

/-- C3: on a nil pointer field, with a constraint set that has a default `d` and passes
parsing and all four checks, the call returns nil and the field points to exactly `d`. -/
theorem sanitize_nil_takes_default (tags : Tags) (fld : Field) (omin omax : Option Int)
    (d : Int)
    (hmin : component tags "min" = omin.map .ok)
    (hmax : component tags "max" = omax.map .ok)
    (hdef : component tags "def" = some (.ok d))
    (hvalid : Valid omin omax (some d))
    (hnil : fld.value = .ptr none) :
    sanitizeInt64Field tags fld = .returned none (.ptr (some d)) := by
  have hdef1 : component tags "def" = (some d).map .ok := hdef
  rw [sanitize_of_valid hmin hmax hdef1 hvalid, hnil]
  rfl

/-- Instance of the preceding theorem: `min=5`, `max=20`, `def=7` and a nil pointer. -/
theorem sanitize_nil_takes_default_witness :
    sanitizeInt64Field (mkTags (some "5") (some "20") (some "7")) ⟨"Age", "", .ptr none⟩ =
      .returned none (.ptr (some 7)) :=
  sanitize_nil_takes_default (mkTags (some "5") (some "20") (some "7")) ⟨"Age", "", .ptr none⟩
    (some 5) (some 20) 7 (by decide) (by decide) (by decide)
    ⟨⟨by simp, by simp, by simp⟩, by simp, by simp⟩ rfl

/-! ## Errors leave the field alone -/

/-- C4: whenever the call returns an error, of whatever kind, the content of the field
(presence and value) is what it was before the call. -/
theorem sanitize_error_atomic (tags : Tags) (fld : Field) (e : SanitizeError)
    (st : FieldValue)
    (h : sanitizeInt64Field tags fld = .returned (some e) st) : st = fld.value := by
  rcases error_or_valid tags fld with ⟨e1, he⟩ | ⟨omin, omax, odef, hmin, hmax, hdef, hvalid⟩
  · rw [he] at h
    injection h with _ h2
    exact h2.symm
  · rw [sanitize_of_valid hmin hmax hdef hvalid] at h
    exact absurd h (resolved_ne_error _ _ _ _ _ _)

/-- Instance of the preceding theorem: `min=10`, `max=5` and a pointer to `7`. -/
theorem sanitize_error_atomic_witness :
    sanitizeInt64Field (mkTags (some "10") (some "5") none) ⟨"Age", "", .ptr (some 7)⟩ =
        .returned (some (.maxLessThanMin "")) (.ptr (some 7)) ∧
      FieldValue.ptr (some 7) = (Field.mk "Age" "" (.ptr (some 7))).value :=
  ⟨by decide,
   sanitize_error_atomic (mkTags (some "10") (some "5") none) ⟨"Age", "", .ptr (some 7)⟩
     (.maxLessThanMin "") (.ptr (some 7)) (by decide)⟩

/-! ## Idempotence -/

/-- C5: if the call returns nil leaving the field with content `st`, then a second call
with the same tags on that content returns nil and leaves `st` as it is. -/
theorem sanitize_idempotent (tags : Tags) (fld : Field) (st : FieldValue)
    (h : sanitizeInt64Field tags fld = .returned none st) :
    sanitizeInt64Field tags { fld with value := st } = .returned none st := by
  rcases error_or_valid tags fld with ⟨e1, he⟩ | ⟨omin, omax, odef, hmin, hmax, hdef, hvalid⟩
  · rw [he] at h
    injection h with h1 _
    cases h1
  · rw [sanitize_of_valid hmin hmax hdef hvalid] at h
    rw [sanitize_of_valid hmin hmax hdef hvalid]
    exact resolved_idem hvalid h

/-- Instance of the preceding theorem: a nil pointer that the first call fills from `def=7`. -/
theorem sanitize_idempotent_witness :
    sanitizeInt64Field (mkTags (some "5") (some "20") (some "7")) ⟨"Age", "", .ptr none⟩ =
        .returned none (.ptr (some 7)) ∧
      sanitizeInt64Field (mkTags (some "5") (some "20") (some "7"))
        ⟨"Age", "", .ptr (some 7)⟩ = .returned none (.ptr (some 7)) :=
  ⟨by decide,
   sanitize_idempotent (mkTags (some "5") (some "20") (some "7")) ⟨"Age", "", .ptr none⟩
     (.ptr (some 7)) (by decide)⟩

/-! ## Inconsistent bounds -/

/-- C6: when `min` and `max` both parse and `max < min`, the call returns the
"max less than min" error, whatever the `def` text is (absent, valid, out of range or
malformed) and whatever the field holds; the field is left as it was. -/
theorem sanitize_max_lt_min (tags : Tags) (fld : Field) (mn mx : Int)
    (hmin : component tags "min" = some (.ok mn))
    (hmax : component tags "max" = some (.ok mx))
    (hlt : mx < mn) :
    sanitizeInt64Field tags fld =
      .returned (some (.maxLessThanMin fld.typeName)) fld.value :=
  sanitize_inconsistent hmin hmax hlt

/-- Instance of the preceding theorem: `min=10`, `max=5`, a malformed default and a
plain field. -/
theorem sanitize_max_lt_min_witness :
    sanitizeInt64Field (mkTags (some "10") (some "5") (some "abc"))
        ⟨"Age", "int64", .plain 7⟩ =
      .returned (some (.maxLessThanMin "int64")) (.plain 7) :=
  sanitize_max_lt_min (mkTags (some "10") (some "5") (some "abc")) ⟨"Age", "int64", .plain 7⟩
    10 5 (by decide) (by decide) (by decide)

/-! ## A validated call that does not return -/

/-- C7: the tags `max=10` alone parse and pass all four checks, yet on a nil pointer
field the call does not complete: it panics in the clamping step. -/
theorem sanitize_validated_nil_panics :
    component (mkTags none (some "10") none) "min" = none ∧
      component (mkTags none (some "10") none) "max" = some (.ok 10) ∧
      component (mkTags none (some "10") none) "def" = none ∧
      Valid none (some 10) none ∧
      sanitizeInt64Field (mkTags none (some "10") none) ⟨"Age", "", .ptr none⟩ =
        .panicked :=
  ⟨by decide, by decide, by decide, ⟨⟨by simp, by simp, by simp⟩, by simp, by simp⟩,
    by decide⟩

/-! ## The default against the bounds -/

/-- C8: with `min`, `max` and `def` well-formed, `min ≤ max` when both are present and
no present bound negative: a default above a present `max` gives the "def higher than
max" error, a default below a present `min` gives the "def lower than min" error, and a
default within every present bound gives neither of the two. -/
theorem sanitize_default_range (tags : Tags) (fld : Field) (omin omax odef : Option Int)
    (hmin : component tags "min" = omin.map .ok)
    (hmax : component tags "max" = omax.map .ok)
    (hdef : component tags "def" = odef.map .ok)
    (hb : ValidBounds omin omax) :
    (∀ d mx, odef = some d → omax = some mx → mx < d →
        sanitizeInt64Field tags fld =
          .returned (some (.defHigherThanMax d mx)) fld.value) ∧
      (∀ d mn, odef = some d → omin = some mn → d < mn →
        sanitizeInt64Field tags fld =
          .returned (some (.defLowerThanMin d mn)) fld.value) ∧
      ((∀ d mx, odef = some d → omax = some mx → d ≤ mx) →
        (∀ d mn, odef = some d → omin = some mn → mn ≤ d) →
        ∀ a b st,
          sanitizeInt64Field tags fld ≠ .returned (some (.defHigherThanMax a b)) st ∧
          sanitizeInt64Field tags fld ≠ .returned (some (.defLowerThanMin a b)) st) := by
  refine ⟨?_, ?_, ?_⟩
  · rintro d mx rfl rfl hgt
    exact sanitize_def_above hmin hmax hb hdef hgt
  · rintro d mn rfl rfl hlt
    refine sanitize_def_below hmin hmax hb hdef (fun mx hx => ?_) hlt
    have := hb.min_le_max mn mx rfl hx
    omega
  · intro h4 h5 a b st
    rw [sanitize_of_valid hmin hmax hdef ⟨hb, h4, h5⟩]
    exact ⟨resolved_ne_error _ _ _ _ _ _, resolved_ne_error _ _ _ _ _ _⟩

/-- Instance of the preceding theorem: `min=5`, `max=20` with `def=25`, a default above
the maximum. -/
theorem sanitize_default_range_witness :
    sanitizeInt64Field (mkTags (some "5") (some "20") (some "25"))
        ⟨"Age", "int64", .plain 7⟩ =
      .returned (some (.defHigherThanMax 25 20)) (.plain 7) :=
  (sanitize_default_range (mkTags (some "5") (some "20") (some "25"))
    ⟨"Age", "int64", .plain 7⟩ (some 5) (some 20) (some 25) (by decide) (by decide)
    (by decide) ⟨by simp, by simp, by simp⟩).1 25 20 rfl rfl (by decide)

/-! ## Negative bounds -/

/-- C9: with `min` and `max` well-formed and not inconsistent, a present negative `min`
or a present negative `max` gives the "can not be below 0" error whatever the `def`
text and the field are; when no present bound is negative (a bound may be 0) that error
is not returned. -/
theorem sanitize_negative_bound (tags : Tags) (fld : Field) (omin omax : Option Int)
    (hmin : component tags "min" = omin.map .ok)
    (hmax : component tags "max" = omax.map .ok)
    (hcons : ∀ mn mx, omin = some mn → omax = some mx → mn ≤ mx) :
    (((∃ mn, omin = some mn ∧ mn < 0) ∨ (∃ mx, omax = some mx ∧ mx < 0)) →
        sanitizeInt64Field tags fld =
          .returned (some (.belowZero fld.typeName)) fld.value) ∧
      ((∀ mn, omin = some mn → 0 ≤ mn) → (∀ mx, omax = some mx → 0 ≤ mx) →
        ∀ name st, sanitizeInt64Field tags fld ≠ .returned (some (.belowZero name)) st) := by
  refine ⟨fun hneg => sanitize_negative hmin hmax hcons hneg, ?_⟩
  intro h2 h3 name st
  have hb : ValidBounds omin omax := ⟨hcons, h2, h3⟩
  rcases component_cases tags "def" with ⟨odef, hdef⟩ | ⟨e, hdef⟩
  · by_cases h4 : ∀ d mx, odef = some d → omax = some mx → d ≤ mx
    · by_cases h5 : ∀ d mn, odef = some d → omin = some mn → mn ≤ d
      · rw [sanitize_of_valid hmin hmax hdef ⟨hb, h4, h5⟩]
        exact resolved_ne_error _ _ _ _ _ _
      · push_neg at h5
        obtain ⟨d, mn, rfl, rfl, hlt⟩ := h5
        rw [sanitize_def_below hmin hmax hb hdef (fun mx h => h4 d mx rfl h) hlt]
        simp
    · push_neg at h4
      obtain ⟨d, mx, rfl, rfl, hlt⟩ := h4
      rw [sanitize_def_above hmin hmax hb hdef hlt]
      simp
  · rw [sanitize_def_unparsed hmin hmax hb hdef]
    simp

/-- Instance of the preceding theorem: `min=-1` alone with a default and a nil pointer. -/
theorem sanitize_negative_bound_witness :
    sanitizeInt64Field (mkTags (some "-1") none (some "3")) ⟨"Age", "", .ptr none⟩ =
      .returned (some (.belowZero "")) (.ptr none) :=
  (sanitize_negative_bound (mkTags (some "-1") none (some "3")) ⟨"Age", "", .ptr none⟩
    (some (-1)) none (by decide) (by decide) (by simp)).1
    (Or.inl ⟨-1, rfl, by decide⟩)

/-! ## Malformed bound text -/

/-- C10: when the `min` text is present and does not parse, or `min` is absent or parses
and the `max` text is present and does not parse, the call returns the error of
`parseInt64` on that text and leaves the field as it was, whatever the `def` text and
the field are. -/
theorem sanitize_malformed_bound (tags : Tags) (fld : Field) (e : ParseError)
    (h : component tags "min" = some (.error e) ∨
      ((∃ omin : Option Int, component tags "min" = omin.map .ok) ∧
        component tags "max" = some (.error e))) :
    sanitizeInt64Field tags fld = .returned (some (.parse e)) fld.value := by
  rcases h with hmin | ⟨⟨omin, hmin⟩, hmax⟩
  · exact sanitize_min_unparsed hmin
  · exact sanitize_max_unparsed hmin hmax

/-- Instance of the preceding theorem: `min=abc` with a well-formed maximum and default
and a pointer to `7`. -/
theorem sanitize_malformed_bound_witness :
    sanitizeInt64Field (mkTags (some "abc") (some "10") (some "5"))
        ⟨"Age", "", .ptr (some 7)⟩ =
      .returned (some (.parse ⟨"abc"⟩)) (.ptr (some 7)) :=
  sanitize_malformed_bound (mkTags (some "abc") (some "10") (some "5"))
    ⟨"Age", "", .ptr (some 7)⟩ ⟨"abc"⟩ (Or.inl (by decide))

/-! ## Malformed default text -/

/-- C11, as the code has it: a `def` text that does not parse gives the error of
`parseInt64` when `min` and `max` are well-formed and pass the two bounds checks; when
they are inconsistent or negative the error of that bounds check is returned instead,
because `def` is parsed only after the two bounds checks. -/
theorem sanitize_malformed_default (tags : Tags) (fld : Field) (omin omax : Option Int)
    (e : ParseError)
    (hmin : component tags "min" = omin.map .ok)
    (hmax : component tags "max" = omax.map .ok)
    (hdef : component tags "def" = some (.error e)) :
    (ValidBounds omin omax →
        sanitizeInt64Field tags fld = .returned (some (.parse e)) fld.value) ∧
      (∀ mn mx, omin = some mn → omax = some mx → mx < mn →
        sanitizeInt64Field tags fld =
          .returned (some (.maxLessThanMin fld.typeName)) fld.value) ∧
      ((∀ mn mx, omin = some mn → omax = some mx → mn ≤ mx) →
        ((∃ mn, omin = some mn ∧ mn < 0) ∨ (∃ mx, omax = some mx ∧ mx < 0)) →
        sanitizeInt64Field tags fld =
          .returned (some (.belowZero fld.typeName)) fld.value) := by
  refine ⟨fun hb => sanitize_def_unparsed hmin hmax hb hdef, ?_, ?_⟩
  · rintro mn mx rfl rfl hlt
    exact sanitize_inconsistent hmin hmax hlt
  · intro hcons hneg
    exact sanitize_negative hmin hmax hcons hneg

/-- Instance of the preceding theorem: `min=5`, `max=10`, `def=abc` and a plain field. -/
theorem sanitize_malformed_default_witness :
    sanitizeInt64Field (mkTags (some "5") (some "10") (some "abc"))
        ⟨"Age", "int64", .plain 7⟩ =
      .returned (some (.parse ⟨"abc"⟩)) (.plain 7) :=
  (sanitize_malformed_default (mkTags (some "5") (some "10") (some "abc"))
    ⟨"Age", "int64", .plain 7⟩ (some 5) (some 10) ⟨"abc"⟩ (by decide) (by decide)
    (by decide)).1 ⟨by simp, by simp, by simp⟩

/-- C11 as stated fails: with `min=-1` alone and the malformed `def=abc` the call returns
the "can not be below 0" error, not the error of `parseInt64`. -/
theorem sanitize_malformed_default_counterexample :
    component (mkTags (some "-1") none (some "abc")) "def" = some (.error ⟨"abc"⟩) ∧
      sanitizeInt64Field (mkTags (some "-1") none (some "abc"))
          ⟨"Age", "int64", .plain 7⟩ =
        .returned (some (.belowZero "int64")) (.plain 7) ∧
      sanitizeInt64Field (mkTags (some "-1") none (some "abc"))
          ⟨"Age", "int64", .plain 7⟩ ≠
        .returned (some (.parse ⟨"abc"⟩)) (.plain 7) := by
  decide

/-! ## Which error is returned -/

/-- C12: with all present components well-formed, the call returns the error of the first
violated check in the order (1) `max < min`, (2) negative `min` or `max`, (3) `def > max`,
(4) `def < min`, however many of the checks are violated, and leaves the field as it
was. -/
theorem sanitize_first_violation (tags : Tags) (fld : Field) (omin omax odef : Option Int)
    (e : SanitizeError)
    (hmin : component tags "min" = omin.map .ok)
    (hmax : component tags "max" = omax.map .ok)
    (hdef : component tags "def" = odef.map .ok)
    (h : firstViolation fld.typeName omin omax odef = some e) :
    sanitizeInt64Field tags fld = .returned (some e) fld.value := by
  unfold firstViolation at h
  split_ifs at h with c1 c2
  · cases h
    rcases omin with _ | mn <;> rcases omax with _ | mx <;> simp at c1
    exact sanitize_inconsistent hmin hmax c1
  · cases h
    have hcons : ∀ mn mx, omin = some mn → omax = some mx → mn ≤ mx := by
      rintro mn mx rfl rfl
      simpa using c1
    refine sanitize_negative hmin hmax hcons ?_
    rcases omin with _ | mn <;> rcases omax with _ | mx <;> simp at c2 ⊢ <;> exact c2
  · have hb : ValidBounds omin omax := by
      refine ⟨?_, ?_, ?_⟩
      · rintro mn mx rfl rfl
        simpa using c1
      · rintro mn rfl
        rcases omax with _ | mx <;> simp at c2 <;> omega
      · rintro mx rfl
        rcases omin with _ | mn <;> simp at c2 <;> omega
    rcases odef with _ | d
    · simp at h
    · by_cases h3 : ∃ mx, omax = some mx ∧ mx < d
      · obtain ⟨mx, rfl, hlt⟩ := h3
        simp [hlt] at h
        subst h
        exact sanitize_def_above hmin hmax hb hdef hlt
      · have h3a : ∀ mx, omax = some mx → d ≤ mx := by
          intro mx hx
          by_contra hc
          exact h3 ⟨mx, hx, not_le.mp hc⟩
        rcases omin with _ | mn
        · rcases omax with _ | mx
          · simp at h
          · have := h3a mx rfl
            simp [not_lt.mpr this] at h
        · have h4 : d < mn ∧ e = .defLowerThanMin d mn := by
            rcases omax with _ | mx
            · simpa [eq_comm] using h
            · have := h3a mx rfl
              simpa [not_lt.mpr this, eq_comm] using h
          obtain ⟨hlt, rfl⟩ := h4
          exact sanitize_def_below hmin hmax hb hdef h3a hlt

/-- Instance of the preceding theorem: `min=-1`, `max=-5` violates checks 1 and 2 and
gives the error of check 1; `max=-1`, `def=5` violates checks 2 and 3 and gives the error
of check 2. -/
theorem sanitize_first_violation_witness :
    sanitizeInt64Field (mkTags (some "-1") (some "-5") none) ⟨"Age", "int64", .plain 7⟩ =
        .returned (some (.maxLessThanMin "int64")) (.plain 7) ∧
      sanitizeInt64Field (mkTags none (some "-1") (some "5")) ⟨"Age", "", .ptr none⟩ =
        .returned (some (.belowZero "")) (.ptr none) :=
  ⟨sanitize_first_violation (mkTags (some "-1") (some "-5") none)
      ⟨"Age", "int64", .plain 7⟩ (some (-1)) (some (-5)) none _ (by decide) (by decide)
      (by decide) (by decide),
   sanitize_first_violation (mkTags none (some "-1") (some "5")) ⟨"Age", "", .ptr none⟩
      none (some (-1)) (some 5) _ (by decide) (by decide) (by decide) (by decide)⟩

/-! ## What the bounds errors name -/

/-- C13: for the field `Age int64` tagged `min=10`, `max=5` the call returns the
"max less than min" error built from `fieldValue.Type().Name()`; its text names the type
`int64` and does not contain the name of the field, `Age`. -/
theorem sanitize_bounds_error_names_type :
    sanitizeInt64Field (mkTags (some "10") (some "5") none) ⟨"Age", "int64", .plain 7⟩ =
        .returned (some (.maxLessThanMin "int64")) (.plain 7) ∧
      (SanitizeError.maxLessThanMin "int64").message =
        "max less than min on int64 field \x27int64\x27 during struct sanitization" ∧
      mentions (SanitizeError.maxLessThanMin "int64").message "Age" = false ∧
      sanitizeInt64Field (mkTags (some "-1") none none) ⟨"Age", "int64", .plain 7⟩ =
        .returned (some (.belowZero "int64")) (.plain 7) ∧
      mentions (SanitizeError.belowZero "int64").message "Age" = false := by
  refine ⟨by decide, by decide, by decide, by decide, by decide⟩

/-! ## The two clamps together -/

/-- C14: on a validated constraint set with both bounds and a present value `v`, the
call applies the minimum transform and then the maximum transform; when the minimum
transform fires (`v < mn`) the maximum check on the updated value `mn` does not fire; at
most one of the two transforms changes the value; and taking the two transforms in the
other order gives the same value. -/
theorem sanitize_clamps_agree (tags : Tags) (fld : Field) (mn mx v : Int)
    (odef : Option Int)
    (hmin : component tags "min" = some (.ok mn))
    (hmax : component tags "max" = some (.ok mx))
    (hdef : component tags "def" = odef.map .ok)
    (hvalid : Valid (some mn) (some mx) odef)
    (hv : fld.value = .plain v ∨ fld.value = .ptr (some v)) :
    sanitizeInt64Field tags fld =
        .returned none (fld.value.withValue (maxClamp (some mx) (minClamp (some mn) v))) ∧
      (v < mn → minClamp (some mn) v = mn ∧ ¬ mx < mn ∧ maxClamp (some mx) mn = mn) ∧
      (minClamp (some mn) v = v ∨
        maxClamp (some mx) (minClamp (some mn) v) = minClamp (some mn) v) ∧
      maxClamp (some mx) (minClamp (some mn) v) =
        minClamp (some mn) (maxClamp (some mx) v) := by
  have hle : mn ≤ mx := hvalid.min_le_max mn mx rfl rfl
  have hmin1 : component tags "min" = (some mn).map .ok := hmin
  have hmax1 : component tags "max" = (some mx).map .ok := hmax
  refine ⟨?_, ?_, ?_, ?_⟩
  · rw [sanitize_of_valid hmin1 hmax1 hdef hvalid]
    rcases hv with hv | hv <;> rw [hv] <;> simp only [resolved, clamp_eq] <;> rfl
  · intro hlt
    simp only [minClamp, maxClamp]
    refine ⟨by simp [hlt], by omega, ?_⟩
    split_ifs <;> omega
  · simp only [minClamp, maxClamp]
    split_ifs <;> omega
  · simp only [minClamp, maxClamp]
    split_ifs <;> omega

/-- Instance of the preceding theorem: value `3` under `min=5`, `max=10`. -/
theorem sanitize_clamps_agree_witness :
    sanitizeInt64Field (mkTags (some "5") (some "10") none) ⟨"Age", "", .ptr (some 3)⟩ =
      .returned none (.ptr (some 5)) :=
  (sanitize_clamps_agree (mkTags (some "5") (some "10") none) ⟨"Age", "", .ptr (some 3)⟩
    5 10 3 none (by decide) (by decide) (by decide)
    ⟨⟨by simp, by simp, by simp⟩, by simp, by simp⟩ (Or.inr rfl)).1

/-! ## Partial bounds -/

/-- C15: on a validated constraint set and a present value `v`: with only `min` present
the field ends with the larger of `v` and `min`, with only `max` present with the smaller
of `v` and `max`, and with neither the field is unchanged, whether or not `def` is
present. -/
theorem sanitize_partial_bounds (tags : Tags) (fld : Field) (omin omax odef : Option Int)
    (v : Int)
    (hmin : component tags "min" = omin.map .ok)
    (hmax : component tags "max" = omax.map .ok)
    (hdef : component tags "def" = odef.map .ok)
    (hvalid : Valid omin omax odef)
    (hv : fld.value = .plain v ∨ fld.value = .ptr (some v)) :
    (∀ mn, omin = some mn → omax = none →
        sanitizeInt64Field tags fld = .returned none (fld.value.withValue (max v mn))) ∧
      (∀ mx, omin = none → omax = some mx →
        sanitizeInt64Field tags fld = .returned none (fld.value.withValue (min v mx))) ∧
      (omin = none → omax = none →
        sanitizeInt64Field tags fld = .returned none fld.value) := by
  rw [sanitize_of_valid hmin hmax hdef hvalid]
  refine ⟨?_, ?_, ?_⟩
  · rintro mn rfl rfl
    have : clamp (some mn) none v = max v mn := by
      simp only [clamp, max_def]
      split_ifs <;> omega
    rcases hv with hv | hv <;> rw [hv] <;> simp [resolved, FieldValue.withValue, this]
  · rintro mx rfl rfl
    have : clamp none (some mx) v = min v mx := by
      simp only [clamp, min_def]
      split_ifs <;> omega
    rcases hv with hv | hv <;> rw [hv] <;> simp [resolved, FieldValue.withValue, this]
  · rintro rfl rfl
    rcases hv with hv | hv <;> rw [hv] <;> simp [resolved, clamp]

/-- Instance of the preceding theorem: value `15` under `max=10` alone. -/
theorem sanitize_partial_bounds_witness :
    sanitizeInt64Field (mkTags none (some "10") none) ⟨"Age", "int64", .plain 15⟩ =
      .returned none (.plain 10) :=
  (sanitize_partial_bounds (mkTags none (some "10") none) ⟨"Age", "int64", .plain 15⟩
    none (some 10) none 15 (by decide) (by decide) (by decide)
    ⟨⟨by simp, by simp, by simp⟩, by simp, by simp⟩ (Or.inl rfl)).2.1 10 rfl rfl

/-! ## An absent key is not the value zero -/

/-- C16: a present negative value is left unchanged without a `min` key and raised to 0
by `min=0`; a present positive value is left unchanged without a `max` key and lowered
to 0 by `max=0`; a nil pointer stays nil without a `def` key and points to 0 after
`def=0`. -/
theorem sanitize_absent_key_not_zero (name typeName : String) (v : Int) :
    (v < 0 →
        sanitizeInt64Field (mkTags none none none) ⟨name, typeName, .plain v⟩ =
          .returned none (.plain v) ∧
        sanitizeInt64Field (mkTags (some "0") none none) ⟨name, typeName, .plain v⟩ =
          .returned none (.plain 0)) ∧
      (0 < v →
        sanitizeInt64Field (mkTags none none none) ⟨name, typeName, .plain v⟩ =
          .returned none (.plain v) ∧
        sanitizeInt64Field (mkTags none (some "0") none) ⟨name, typeName, .plain v⟩ =
          .returned none (.plain 0)) ∧
      (sanitizeInt64Field (mkTags none none none) ⟨name, typeName, .ptr none⟩ =
          .returned none (.ptr none) ∧
        sanitizeInt64Field (mkTags none none (some "0")) ⟨name, typeName, .ptr none⟩ =
          .returned none (.ptr (some 0))) := by
  have hnone : ∀ fv, sanitizeInt64Field (mkTags none none none) ⟨name, typeName, fv⟩ =
      resolved none none none fv := fun fv =>
    @sanitize_of_valid _ _ none none none (by decide) (by decide)
      (by decide) ⟨⟨by simp, by simp, by simp⟩, by simp, by simp⟩
  have hmin0 : sanitizeInt64Field (mkTags (some "0") none none) ⟨name, typeName, .plain v⟩ =
      resolved (some 0) none none (.plain v) :=
    @sanitize_of_valid _ _ (some 0) none none (by decide) (by decide)
      (by decide) ⟨⟨by simp, by simp, by simp⟩, by simp, by simp⟩
  have hmax0 : sanitizeInt64Field (mkTags none (some "0") none) ⟨name, typeName, .plain v⟩ =
      resolved none (some 0) none (.plain v) :=
    @sanitize_of_valid _ _ none (some 0) none (by decide) (by decide)
      (by decide) ⟨⟨by simp, by simp, by simp⟩, by simp, by simp⟩
  have hdef0 : sanitizeInt64Field (mkTags none none (some "0")) ⟨name, typeName, .ptr none⟩ =
      resolved none none (some 0) (.ptr none) :=
    @sanitize_of_valid _ _ none none (some 0) (by decide) (by decide)
      (by decide) ⟨⟨by simp, by simp, by simp⟩, by simp, by simp⟩
  refine ⟨fun hneg => ⟨?_, ?_⟩, fun hpos => ⟨?_, ?_⟩, ?_, ?_⟩
  · rw [hnone]; rfl
  · rw [hmin0]; simp [resolved, clamp, hneg]
  · rw [hnone]; rfl
  · rw [hmax0]; simp [resolved, clamp, hpos]
  · rw [hnone]; rfl
  · rw [hdef0]; rfl

/-- Instance of the preceding theorem: the value `-4` with and without `min=0`. -/
theorem sanitize_absent_key_not_zero_witness :
    sanitizeInt64Field (mkTags none none none) ⟨"Age", "int64", .plain (-4)⟩ =
        .returned none (.plain (-4)) ∧
      sanitizeInt64Field (mkTags (some "0") none none) ⟨"Age", "int64", .plain (-4)⟩ =
        .returned none (.plain 0) :=
  (sanitize_absent_key_not_zero "Age" "int64" (-4)).1 (by decide)

/-! ## The value after a successful call -/

/-- C17: if the call returns nil and the field is present afterwards with value `v`
(plain, non-nil before, or filled from `def`), then `min ≤ v` when `min` is present and
`v ≤ max` when `max` is present. -/
theorem sanitize_result_within_bounds (tags : Tags) (fld : Field) (st : FieldValue)
    (v : Int)
    (h : sanitizeInt64Field tags fld = .returned none st)
    (hv : st.value? = some v) :
    (∀ mn, component tags "min" = some (.ok mn) → mn ≤ v) ∧
      (∀ mx, component tags "max" = some (.ok mx) → v ≤ mx) := by
  rcases error_or_valid tags fld with ⟨e1, he⟩ | ⟨omin, omax, odef, hmin, hmax, hdef, hvalid⟩
  · rw [he] at h
    injection h with h1 _
    cases h1
  · rw [sanitize_of_valid hmin hmax hdef hvalid] at h
    obtain ⟨h1, h2⟩ := resolved_within hvalid h hv
    exact ⟨fun mn hn => h1 mn (component_ok_unique hmin hn),
      fun mx hx => h2 mx (component_ok_unique hmax hx)⟩

/-- Instance of the preceding theorem: value `15` under `min=5`, `max=10` ends as `10`. -/
theorem sanitize_result_within_bounds_witness :
    sanitizeInt64Field (mkTags (some "5") (some "10") none) ⟨"Age", "int64", .plain 15⟩ =
        .returned none (.plain 10) ∧
      (5 : Int) ≤ 10 :=
  ⟨by decide,
   (sanitize_result_within_bounds (mkTags (some "5") (some "10") none)
     ⟨"Age", "int64", .plain 15⟩ (.plain 10) 10 (by decide) rfl).1 5 (by decide)⟩

/-! ## The two default checks -/

/-- C18: on well-formed components that pass the two bounds checks, `def > max` and
`def < min` never hold together, and the call behaves as if the two default checks were
taken in the other order: it returns the error that `def < min` first, `def > max`
second would select, and runs on when that order finds none. -/
theorem sanitize_default_checks_commute (tags : Tags) (fld : Field) (omin omax : Option Int)
    (d : Int)
    (hmin : component tags "min" = omin.map .ok)
    (hmax : component tags "max" = omax.map .ok)
    (hdef : component tags "def" = some (.ok d))
    (hb : ValidBounds omin omax) :
    (∀ mn mx, omin = some mn → omax = some mx → ¬ (mx < d ∧ d < mn)) ∧
      sanitizeInt64Field tags fld =
        match defErrorMinFirst omin omax d with
        | some e => .returned (some e) fld.value
        | none => resolved omin omax (some d) fld.value := by
  have hcons := hb.min_le_max
  refine ⟨?_, ?_⟩
  · rintro mn mx rfl rfl ⟨h1, h2⟩
    have := hcons mn mx rfl rfl
    omega
  · by_cases hlow : ∃ mn, omin = some mn ∧ d < mn
    · obtain ⟨mn, rfl, hlt⟩ := hlow
      have hle : ∀ mx, omax = some mx → d ≤ mx := by
        intro mx hx
        have := hcons mn mx rfl hx
        omega
      rw [sanitize_def_below hmin hmax hb hdef hle hlt]
      simp [defErrorMinFirst, hlt]
    · have h5 : ∀ mn, omin = some mn → mn ≤ d := by
        intro mn hn
        by_contra hc
        exact hlow ⟨mn, hn, not_le.mp hc⟩
      by_cases hhigh : ∃ mx, omax = some mx ∧ mx < d
      · obtain ⟨mx, rfl, hlt⟩ := hhigh
        rw [sanitize_def_above hmin hmax hb hdef hlt]
        rcases omin with _ | mn
        · simp [defErrorMinFirst, hlt]
        · have := h5 mn rfl
          simp [defErrorMinFirst, hlt, not_lt.mpr this]
      · have h4 : ∀ mx, omax = some mx → d ≤ mx := by
          intro mx hx
          by_contra hc
          exact hhigh ⟨mx, hx, not_le.mp hc⟩
        have hvalid : Valid omin omax (some d) := by
          refine ⟨hb, ?_, ?_⟩
          · rintro d1 mx hd1 hx
            cases hd1
            exact h4 mx hx
          · rintro d1 mn hd1 hn
            cases hd1
            exact h5 mn hn
        have hdef1 : component tags "def" = (some d).map .ok := hdef
        rw [sanitize_of_valid hmin hmax hdef1 hvalid]
        rcases omin with _ | mn <;> rcases omax with _ | mx
        · simp [defErrorMinFirst]
        · have := h4 mx rfl
          simp [defErrorMinFirst, not_lt.mpr this]
        · have := h5 mn rfl
          simp [defErrorMinFirst, not_lt.mpr this]
        · have h1 := h4 mx rfl
          have h2 := h5 mn rfl
          simp [defErrorMinFirst, not_lt.mpr h1, not_lt.mpr h2]

/-- Instance of the preceding theorem: `min=5`, `max=20`, `def=1`, a default below the
minimum. -/
theorem sanitize_default_checks_commute_witness :
    sanitizeInt64Field (mkTags (some "5") (some "20") (some "1"))
        ⟨"Age", "int64", .plain 7⟩ =
      .returned (some (.defLowerThanMin 1 5)) (.plain 7) :=
  (sanitize_default_checks_commute (mkTags (some "5") (some "20") (some "1"))
    ⟨"Age", "int64", .plain 7⟩ (some 5) (some 20) 1 (by decide) (by decide) (by decide)
    ⟨by simp, by simp, by simp⟩).2

/-! ## Presence of the field -/

/-- C19: whenever the call returns, a field that was present is still present; a field
that was nil is present afterwards only if the tags have a `def` key; and on a present
field two validated constraint sets with the same `min` and `max` that differ only in
`def` give the same outcome. -/
theorem sanitize_presence_frame (tags : Tags) (fld : Field) :
    (∀ err st, sanitizeInt64Field tags fld = .returned err st →
        fld.value.value?.isSome → st.value?.isSome) ∧
      (∀ err st, sanitizeInt64Field tags fld = .returned err st →
        fld.value.value? = none → st.value?.isSome → (tags "def").isSome) ∧
      (∀ (tags2 : Tags) (omin omax odef odef2 : Option Int),
        component tags "min" = omin.map .ok → component tags "max" = omax.map .ok →
        component tags "def" = odef.map .ok →
        component tags2 "min" = omin.map .ok → component tags2 "max" = omax.map .ok →
        component tags2 "def" = odef2.map .ok →
        Valid omin omax odef → Valid omin omax odef2 →
        fld.value.value?.isSome →
        sanitizeInt64Field tags fld = sanitizeInt64Field tags2 fld) := by
  refine ⟨?_, ?_, ?_⟩
  · intro err st h hp
    rcases error_or_valid tags fld with ⟨e1, he⟩ | ⟨omin, omax, odef, hmin, hmax, hdef, hvalid⟩
    · rw [he] at h
      injection h with _ h2
      rw [← h2]
      exact hp
    · rw [sanitize_of_valid hmin hmax hdef hvalid] at h
      exact (resolved_presence h).1 hp
  · intro err st h hn hs
    rcases error_or_valid tags fld with ⟨e1, he⟩ | ⟨omin, omax, odef, hmin, hmax, hdef, hvalid⟩
    · rw [he] at h
      injection h with _ h2
      rw [← h2, hn] at hs
      cases hs
    · rw [sanitize_of_valid hmin hmax hdef hvalid] at h
      rw [component_isSome hdef]
      exact (resolved_presence h).2 hn hs
  · intro tags2 omin omax odef odef2 hmin hmax hdef hmin2 hmax2 hdef2 hvalid hvalid2 hp
    rw [sanitize_of_valid hmin hmax hdef hvalid, sanitize_of_valid hmin2 hmax2 hdef2 hvalid2]
    rcases hfv : fld.value with v | _ | v
    · rfl
    · rw [hfv] at hp
      cases hp
    · rfl

/-- Instance of the preceding theorem: a pointer to `3` under `min=5`, `max=10`, once
without default and once with `def=7`. -/
theorem sanitize_presence_frame_witness :
    sanitizeInt64Field (mkTags (some "5") (some "10") none) ⟨"Age", "", .ptr (some 3)⟩ =
      sanitizeInt64Field (mkTags (some "5") (some "10") (some "7"))
        ⟨"Age", "", .ptr (some 3)⟩ :=
  (sanitize_presence_frame (mkTags (some "5") (some "10") none)
    ⟨"Age", "", .ptr (some 3)⟩).2.2 (mkTags (some "5") (some "10") (some "7"))
    (some 5) (some 10) none (some 7) (by decide) (by decide) (by decide) (by decide)
    (by decide) (by decide) ⟨⟨by simp, by simp, by simp⟩, by simp, by simp⟩
    ⟨⟨by simp, by simp, by simp⟩, by simp, by simp⟩ rfl

/-! ## The default may be negative -/

/-- C20: without a `min` key a negative default is accepted, `def=-5` alone or with
`max=10` makes a nil pointer point to `-5`; whereas whenever a `min` key is present and
the call returns nil, a field that is present afterwards holds a value `≥ 0`. -/
theorem sanitize_default_sign (tags : Tags) (fld : Field) (st : FieldValue) (v : Int) :
    sanitizeInt64Field (mkTags none none (some "-5")) ⟨"Age", "", .ptr none⟩ =
        .returned none (.ptr (some (-5))) ∧
      sanitizeInt64Field (mkTags none (some "10") (some "-5")) ⟨"Age", "", .ptr none⟩ =
        .returned none (.ptr (some (-5))) ∧
      ((tags "min").isSome → sanitizeInt64Field tags fld = .returned none st →
        st.value? = some v → 0 ≤ v) := by
  refine ⟨by decide, by decide, ?_⟩
  intro hm h hv
  rcases error_or_valid tags fld with ⟨e1, he⟩ | ⟨omin, omax, odef, hmin, hmax, hdef, hvalid⟩
  · rw [he] at h
    injection h with h1 _
    cases h1
  · rw [sanitize_of_valid hmin hmax hdef hvalid] at h
    rw [component_isSome hmin] at hm
    obtain ⟨mn, rfl⟩ := Option.isSome_iff_exists.mp hm
    have h1 := (resolved_within hvalid h hv).1 mn rfl
    have h2 := hvalid.min_nonneg mn rfl
    omega

/-- Instance of the preceding theorem: a nil pointer under `min=0`, `def=0`. -/
theorem sanitize_default_sign_witness :
    sanitizeInt64Field (mkTags (some "0") none (some "0")) ⟨"Age", "", .ptr none⟩ =
        .returned none (.ptr (some 0)) ∧
      (0 : Int) ≤ 0 :=
  ⟨by decide,
   (sanitize_default_sign (mkTags (some "0") none (some "0")) ⟨"Age", "", .ptr none⟩
     (.ptr (some 0)) 0).2.2 rfl (by decide) rfl⟩

end Sanitize
